import Mathlib

/-!
# Multicast delegate (`Delegate.hpp`, `main.cpp`)

A shallow embedding of the header `Delegate.hpp` and of the demo `main.cpp`.

* Function pointers, object pointers, pointers to member functions and heap
  addresses are natural numbers.  The class template parameter `ObjectT` of
  `MemberFunctionWrapper` is a natural number naming the class: two
  instantiations over different classes are different concrete types, which is
  what `dynamic_cast<ThisT*>` looks at.
* A `std::shared_ptr` to a wrapper is a non-null handle: the address of the heap
  object together with the (immutable) object it points to.
* A raw pointer `BaseT*` is an `Option`: `none` is the null pointer.
* Member operators declared to return `Delegate&` yield the new state of the
  object together with the reference handed back, `none` when the body ends
  without a return statement.
* Control that flows off the end of a value-returning function is undefined
  behaviour.  It is recorded by a flag (`OpResult.undefined`, `Exec.undefined`):
  the state shown with a set flag is what the statements executed so far left,
  and nothing that would follow in the program is modelled.  The loop of
  `operator()` stops at the first wrapper whose `Invoke` sets it.
* Arguments are by-value parameters passed as rvalues of the parameter type;
  `std::forward` of the pack makes every callee parameter move-constructed
  from the caller's object.
* The code behind the targets is a parameter (`Program`); every call of a
  target is recorded in a trace.
-/

set_option linter.dupNamespace false

namespace Delegate

/-! ## Argument values -/

/-- Argument objects: a scalar (moving it copies it) or a `std::vector<int>`
(moving it leaves the source empty). -/
inductive Val where
  | int (n : Int)
  | vec (xs : List Int)
  deriving DecidableEq, Repr

/-- Move construction from `src`: the freshly constructed object and the state of `src`
afterwards. -/
def Val.moveConstruct : Val → Val × Val
  | .int n => (.int n, .int n)
  | .vec xs => (.vec xs, .vec [])

/-! ## Targets and the program they belong to -/

/-- The callable entity that ends up being called. -/
inductive Target where
  | function (pCallback : Nat)
  | method (ObjectT : Nat) (callableObject : Nat) (pCallback : Nat)
  deriving DecidableEq, Repr

/-- One call of a target, with the parameter values the callee received. -/
structure CallRecord where
  target : Target
  received : List Val
  deriving DecidableEq, Repr

/-- The code behind the function and method pointers: run on the received parameters and the
program state, it gives the returned value (`none` for `void`) and the new state. -/
structure Program (σ : Type) where
  run : Target → List Val → σ → Option Val × σ

/-- Execution state: the trace of target calls made so far, the program state, and whether
control has flowed off the end of a value-returning function, after which the behaviour of the
program is undefined. -/
structure Exec (σ : Type) where
  trace : List CallRecord
  state : σ
  undefined : Bool

/-- The call expression `target(std::forward<ArgumentsP>(pack)...)`: every parameter is
move-constructed from the corresponding pack object, the callee runs, and the call is
recorded.  Gives the value of the call, the pack afterwards and the execution state. -/
def callTarget {σ : Type} (prog : Program σ) (t : Target) (pack : List Val) (e : Exec σ) :
    Option Val × List Val × Exec σ :=
  let params := pack.map (fun v => v.moveConstruct.1)
  let r := prog.run t params e.state
  (r.1, pack.map (fun v => v.moveConstruct.2), ⟨e.trace ++ [⟨t, params⟩], r.2, e.undefined⟩)

/-! ## Wrappers -/

/-- The class `StaticFunctionWrapper<ReturnT(ArgumentsP...)>`. -/
structure StaticFunctionWrapper where
  callable_ : Nat
  deriving DecidableEq, Repr

/-- The class `MemberFunctionWrapper<ObjectT, ReturnT (ObjectT::*)(ArgumentsP...)>`; the field
`ObjectT` names the instantiation. -/
structure MemberFunctionWrapper where
  ObjectT : Nat
  callableObject_ : Nat
  callableMethod_ : Nat
  deriving DecidableEq, Repr

/-- An object whose static type is `BaseFunctionWrapper<ReturnT(ArgumentsP...)>`: one of the two
concrete wrappers. -/
inductive BaseFunctionWrapper where
  | static (w : StaticFunctionWrapper)
  | member (w : MemberFunctionWrapper)
  deriving DecidableEq, Repr

/-- The cast `dynamic_cast<StaticFunctionWrapper*>(p)`. -/
def dynamic_cast_Static : Option BaseFunctionWrapper → Option StaticFunctionWrapper
  | some (.static w) => some w
  | _ => none

/-- The cast `dynamic_cast<MemberFunctionWrapper<ObjectT, ...>*>(p)`. -/
def dynamic_cast_Member (ObjectT : Nat) : Option BaseFunctionWrapper → Option MemberFunctionWrapper
  | some (.member w) => if w.ObjectT = ObjectT then some w else none
  | _ => none

/-- The method `StaticFunctionWrapper::Compare`. -/
def StaticFunctionWrapper.Compare (self : StaticFunctionWrapper)
    (pComparable : Option BaseFunctionWrapper) : Bool :=
  match dynamic_cast_Static pComparable with
  | some pStaticWrap => if self.callable_ = pStaticWrap.callable_ then true else false
  | none => false

/-- The method `MemberFunctionWrapper::Compare`. -/
def MemberFunctionWrapper.Compare (self : MemberFunctionWrapper)
    (pComparable : Option BaseFunctionWrapper) : Bool :=
  match dynamic_cast_Member self.ObjectT pComparable with
  | some pMemberWrap =>
    if self.callableMethod_ = pMemberWrap.callableMethod_ ∧
       self.callableObject_ = pMemberWrap.callableObject_ then true else false
  | none => false

/-- Virtual call of `Compare`. -/
def BaseFunctionWrapper.Compare (self : BaseFunctionWrapper)
    (pComparable : Option BaseFunctionWrapper) : Bool :=
  match self with
  | .static w => w.Compare pComparable
  | .member w => w.Compare pComparable

/-- The method `StaticFunctionWrapper::Invoke`: calls `callable_` with the forwarded pack.  The
body has no return statement: the value of the call is dropped, and when the target returns a
value (`ReturnT` is not `void`) control flows off the end of a value-returning function, so the
behaviour is undefined from there. -/
def StaticFunctionWrapper.Invoke {σ : Type} (prog : Program σ) (self : StaticFunctionWrapper)
    (pack : List Val) (e : Exec σ) : Option Val × List Val × Exec σ :=
  let r := callTarget prog (.function self.callable_) pack e
  (none, r.2.1, ⟨r.2.2.trace, r.2.2.state, r.2.2.undefined || r.1.isSome⟩)

/-- The method `MemberFunctionWrapper::Invoke`: calls `callableObject_->*callableMethod_` with
the forwarded pack.  The body has no return statement: the value of the call is dropped, and
when the target returns a value (`ReturnT` is not `void`) control flows off the end of a
value-returning function, so the behaviour is undefined from there. -/
def MemberFunctionWrapper.Invoke {σ : Type} (prog : Program σ) (self : MemberFunctionWrapper)
    (pack : List Val) (e : Exec σ) : Option Val × List Val × Exec σ :=
  let r := callTarget prog (.method self.ObjectT self.callableObject_ self.callableMethod_) pack e
  (none, r.2.1, ⟨r.2.2.trace, r.2.2.state, r.2.2.undefined || r.1.isSome⟩)

/-- Virtual call of `Invoke`. -/
def BaseFunctionWrapper.Invoke {σ : Type} (prog : Program σ) (self : BaseFunctionWrapper)
    (pack : List Val) (e : Exec σ) : Option Val × List Val × Exec σ :=
  match self with
  | .static w => w.Invoke prog pack e
  | .member w => w.Invoke prog pack e

/-- The target a wrapper holds. -/
def BaseFunctionWrapper.target : BaseFunctionWrapper → Target
  | .static w => .function w.callable_
  | .member w => .method w.ObjectT w.callableObject_ w.callableMethod_

/-! ## Shared handles and the factory -/

/-- A non-null `std::shared_ptr<BaseFunctionWrapper<ReturnT(ArgumentsP...)>>`. -/
structure SharedPtr where
  addr : Nat
  obj : BaseFunctionWrapper
  deriving DecidableEq, Repr

/-- The raw pointer `p.get()`. -/
def SharedPtr.get (p : SharedPtr) : Option BaseFunctionWrapper := some p.obj

/-- The creator `Function(pCallable)` for a plain function; `addr` is where `make_shared` put
the new wrapper. -/
def Function (addr : Nat) (pCallable : Nat) : SharedPtr :=
  ⟨addr, .static ⟨pCallable⟩⟩

/-- The creator `Function(pCallableObject, pCallable)` for an object of class `ObjectT` and one
of its methods; `addr` is where `make_shared` put the new wrapper. -/
def FunctionMember (addr : Nat) (ObjectT : Nat) (pCallableObject : Nat) (pCallable : Nat) :
    SharedPtr :=
  ⟨addr, .member ⟨ObjectT, pCallableObject, pCallable⟩⟩

/-! ## The delegate -/

/-- The algorithm `std::find_if` on a list: the position of the first element satisfying `pred`,
or the length of the list (the end iterator) when there is none. -/
def find_if {α : Type} (pred : α → Bool) : List α → Nat
  | [] => 0
  | x :: xs => if pred x then 0 else find_if pred xs + 1

/-- The operation `std::list::erase(it)` for a dereferenceable iterator `it`. -/
def erase {α : Type} : List α → Nat → List α
  | [], _ => []
  | _ :: xs, 0 => xs
  | x :: xs, it + 1 => x :: erase xs it

/-- The class `Delegate<ReturnT(ArgumentsP...)>`. -/
structure Delegate where
  wrappers_ : List SharedPtr
  deriving DecidableEq, Repr

/-- Outcome of a member operator declared to return `Delegate&`: the state of the object after
the statements of the body, the reference handed back, and whether control flowed off the end
of the body without a return statement, which is undefined behaviour. -/
structure OpResult where
  self : Delegate
  returned : Option Delegate
  undefined : Bool
  deriving DecidableEq, Repr

/-- The default constructor `Delegate()`. -/
def Delegate.default : Delegate := ⟨[]⟩

/-- The constructor `Delegate(pCallable)`. -/
def Delegate.fromCallable (pCallable : SharedPtr) : Delegate :=
  ⟨([] : List SharedPtr) ++ [pCallable]⟩

/-- The operator `Delegate::operator+=`. -/
def Delegate.operatorPlusEq (self : Delegate) (pCallable : SharedPtr) : OpResult :=
  let compare := fun (source : SharedPtr) => source.obj.Compare pCallable.get
  let it := find_if compare self.wrappers_
  let self1 : Delegate :=
    if it = self.wrappers_.length then ⟨self.wrappers_ ++ [pCallable]⟩ else self
  ⟨self1, some self1, false⟩

/-- The operator `Delegate::operator-=`. -/
def Delegate.operatorMinusEq (self : Delegate) (pCallable : SharedPtr) : OpResult :=
  let compare := fun (source : SharedPtr) => source.obj.Compare pCallable.get
  let it := find_if compare self.wrappers_
  let self1 : Delegate :=
    if it ≠ self.wrappers_.length then ⟨erase self.wrappers_ it⟩ else self
  ⟨self1, some self1, false⟩

/-- The operator `Delegate::operator=` taking a wrapper: clears, pushes, and ends without a
return statement although it is declared to return `Delegate&`: every call flows off the end
of a value-returning function, so its behaviour is undefined. -/
def Delegate.operatorAssign (_self : Delegate) (pCallable : SharedPtr) : OpResult :=
  let cleared : List SharedPtr := []
  ⟨⟨cleared ++ [pCallable]⟩, none, true⟩

/-- Outcome of the call operator: the value it returns (`none`: it is `void`), the delegate, the
caller's pack and the execution state afterwards. -/
structure CallOutcome (σ : Type) where
  value : Option Val
  self : Delegate
  pack : List Val
  exec : Exec σ

/-- The loop of `Delegate::operator()` over the remaining wrappers; it goes no further than a
call of `Invoke` whose behaviour is undefined. -/
def invokeLoop {σ : Type} (prog : Program σ) : List SharedPtr → List Val → Exec σ →
    List Val × Exec σ
  | [], pack, e => (pack, e)
  | call :: rest, pack, e =>
    let r := call.obj.Invoke prog pack e
    if r.2.2.undefined then (r.2.1, r.2.2) else invokeLoop prog rest r.2.1 r.2.2

/-- The operator `Delegate::operator()`. -/
def Delegate.operatorCall {σ : Type} (prog : Program σ) (self : Delegate) (pack : List Val)
    (e : Exec σ) : CallOutcome σ :=
  let r := invokeLoop prog self.wrappers_ pack e
  ⟨none, self, r.1, r.2⟩

/-- The delegates that construction followed by any number of `+=`, `-=` and `=` calls can
produce.  The state the statements of `operator=` leave is included, although the behaviour of
a program that calls it is undefined from that call on. -/
inductive Reachable : Delegate → Prop
  | default : Reachable Delegate.default
  | fromCallable (w : SharedPtr) : Reachable (Delegate.fromCallable w)
  | plusEq (d : Delegate) (w : SharedPtr) : Reachable d → Reachable (d.operatorPlusEq w).self
  | minusEq (d : Delegate) (w : SharedPtr) : Reachable d → Reachable (d.operatorMinusEq w).self
  | assign (d : Delegate) (w : SharedPtr) : Reachable d → Reachable (d.operatorAssign w).self

/-- The statements `d += w;` for the wrappers of `ws`, in order. -/
def addAll (d : Delegate) (ws : List SharedPtr) : Delegate :=
  ws.foldl (fun acc w => (acc.operatorPlusEq w).self) d

/-- A variant of `operator+=` that is not in the source: its lambda calls `Compare` the other
way round, `pCallable->Compare(source.get())`.  The two directions are compared against it. -/
def Delegate.operatorPlusEqFlipped (self : Delegate) (pCallable : SharedPtr) : OpResult :=
  let compare := fun (source : SharedPtr) => pCallable.obj.Compare source.get
  let it := find_if compare self.wrappers_
  let self1 : Delegate :=
    if it = self.wrappers_.length then ⟨self.wrappers_ ++ [pCallable]⟩ else self
  ⟨self1, some self1, false⟩

/-- A variant of `operator-=` that is not in the source: its lambda calls `Compare` the other
way round, `pCallable->Compare(source.get())`.  The two directions are compared against it. -/
def Delegate.operatorMinusEqFlipped (self : Delegate) (pCallable : SharedPtr) : OpResult :=
  let compare := fun (source : SharedPtr) => pCallable.obj.Compare source.get
  let it := find_if compare self.wrappers_
  let self1 : Delegate :=
    if it ≠ self.wrappers_.length then ⟨erase self.wrappers_ it⟩ else self
  ⟨self1, some self1, false⟩

end Delegate

/-! ## The demo program `main.cpp` -/

namespace Demo

open Delegate

/-- The function `test_func1`, acting on the lines written to standard output. -/
def test_func1 (out : List String) : List String :=
  out ++ ["called the test function1"]

/-- The function `test_func2`. -/
def test_func2 (out : List String) : List String :=
  out ++ ["called the test function2"]

/-- The function `test_func3`. -/
def test_func3 (a : Int) (out : List String) : List String :=
  out ++ ["called the test function3, passed value: " ++ toString a]

/-- The method `MyClass::some_method`. -/
def MyClass.some_method (out : List String) : List String :=
  out ++ ["This is a method of class MyClass"]

/-- Address of `test_func1`. -/
def addr_test_func1 : Nat := 1

/-- Address of `test_func2`. -/
def addr_test_func2 : Nat := 2

/-- Address of `test_func3`. -/
def addr_test_func3 : Nat := 3

/-- The class `MyClass`. -/
def class_MyClass : Nat := 1

/-- The member pointer `&MyClass::some_method`. -/
def addr_some_method : Nat := 1

/-- The address `&mc` of the local object of `main`. -/
def addr_mc : Nat := 100

/-- The code of `main.cpp` behind each pointer. -/
def program : Program (List String) where
  run t params out :=
    match t with
    | .function p =>
      if p = addr_test_func1 then (none, test_func1 out)
      else if p = addr_test_func2 then (none, test_func2 out)
      else if p = addr_test_func3 then
        match params with
        | [.int a] => (none, test_func3 a out)
        | _ => (none, out)
      else (none, out)
    | .method T _ p =>
      if T = class_MyClass ∧ p = addr_some_method then (none, MyClass.some_method out)
      else (none, out)

/-- The three wrappers `main` creates, at the heap addresses 1000, 1001 and 1002. -/
def wrappers : List SharedPtr :=
  [Function 1000 addr_test_func1, Function 1001 addr_test_func2,
   FunctionMember 1002 class_MyClass addr_mc addr_some_method]

/-- The function `main`, started with nothing written and no call made: the outcome of `d()`. -/
def main : CallOutcome (List String) :=
  let d := Delegate.default
  let d := (d.operatorPlusEq (Function 1000 addr_test_func1)).self
  let d := (d.operatorPlusEq (Function 1001 addr_test_func2)).self
  let d := (d.operatorPlusEq (FunctionMember 1002 class_MyClass addr_mc addr_some_method)).self
  d.operatorCall program [] ⟨[], [], false⟩

end Demo

namespace Delegate

/-! ## Facts about `find_if` and `erase` -/

theorem find_if_le_length {α : Type} (pred : α → Bool) (l : List α) :
    find_if pred l ≤ l.length := by
  induction l with
  | nil => simp [find_if]
  | cons x xs ih =>
    by_cases h : pred x = true
    · simp [find_if, h]
    · simp [find_if, h, ih]

theorem find_if_eq_length_iff {α : Type} (pred : α → Bool) (l : List α) :
    find_if pred l = l.length ↔ ∀ x ∈ l, pred x = false := by
  induction l with
  | nil => simp [find_if]
  | cons x xs ih =>
    by_cases h : pred x = true
    · simp [find_if, h]
    · simp [find_if, h, ih]

theorem find_if_split {α : Type} (pred : α → Bool) (l : List α)
    (h : find_if pred l ≠ l.length) :
    ∃ pre e post, l = pre ++ e :: post ∧ pre.length = find_if pred l ∧
      (∀ x ∈ pre, pred x = false) ∧ pred e = true ∧
      erase l (find_if pred l) = pre ++ post := by
  induction l with
  | nil => simp [find_if] at h
  | cons x xs ih =>
    by_cases hx : pred x = true
    · exact ⟨[], x, xs, by simp, by simp [find_if, hx], by simp, hx, by simp [find_if, hx, erase]⟩
    · have h1 : find_if pred xs ≠ xs.length := by
        intro hc
        apply h
        simp [find_if, hx, hc]
      obtain ⟨pre, e, post, hl, hlen, hpre, he, her⟩ := ih h1
      refine ⟨x :: pre, e, post, by simp [hl], by simp [find_if, hx, hlen], ?_, he, ?_⟩
      · intro y hy
        rcases List.mem_cons.mp hy with rfl | hy
        · simpa using hx
        · exact hpre y hy
      · simp [find_if, hx, erase, her]

/-! ## Registration and removal -/

theorem plusEq_cases (d : Delegate) (w : SharedPtr) :
    ((∃ e ∈ d.wrappers_, e.obj.Compare w.get = true) ∧
        (d.operatorPlusEq w).self.wrappers_ = d.wrappers_) ∨
      ((∀ e ∈ d.wrappers_, e.obj.Compare w.get = false) ∧
        (d.operatorPlusEq w).self.wrappers_ = d.wrappers_ ++ [w]) := by
  by_cases h : find_if (fun source : SharedPtr => source.obj.Compare w.get) d.wrappers_
      = d.wrappers_.length
  · right
    refine ⟨(find_if_eq_length_iff _ _).mp h, ?_⟩
    simp [Delegate.operatorPlusEq, h]
  · left
    constructor
    · by_contra hc
      apply h
      apply (find_if_eq_length_iff _ _).mpr
      intro x hx
      by_contra hx2
      exact hc ⟨x, hx, by simpa using hx2⟩
    · simp [Delegate.operatorPlusEq, h]

/-- C1: `operator+=` leaves the sequence as it is when some stored element compares equal to the
new wrapper, and otherwise appends the new wrapper at the end; either way the reference it
returns is the delegate in its new state. -/
theorem C1_add_contract (d : Delegate) (w : SharedPtr) :
    (((∃ e ∈ d.wrappers_, e.obj.Compare w.get = true) ∧
        (d.operatorPlusEq w).self.wrappers_ = d.wrappers_) ∨
      ((∀ e ∈ d.wrappers_, e.obj.Compare w.get = false) ∧
        (d.operatorPlusEq w).self.wrappers_ = d.wrappers_ ++ [w])) ∧
    (d.operatorPlusEq w).returned = some (d.operatorPlusEq w).self :=
  ⟨plusEq_cases d w, rfl⟩

/-- C2: `operator-=` deletes the first stored element that compares equal to the given wrapper
and keeps all the others in their order; with no such element the sequence stays as it is.  The
operator always completes and returns the delegate. -/
theorem C2_remove_contract (d : Delegate) (w : SharedPtr) :
    ((∃ pre e post, d.wrappers_ = pre ++ e :: post ∧
        (∀ x ∈ pre, x.obj.Compare w.get = false) ∧ e.obj.Compare w.get = true ∧
        (d.operatorMinusEq w).self.wrappers_ = pre ++ post) ∨
      ((∀ x ∈ d.wrappers_, x.obj.Compare w.get = false) ∧
        (d.operatorMinusEq w).self.wrappers_ = d.wrappers_)) ∧
    (d.operatorMinusEq w).returned = some (d.operatorMinusEq w).self := by
  refine ⟨?_, rfl⟩
  by_cases h : find_if (fun source : SharedPtr => source.obj.Compare w.get) d.wrappers_
      = d.wrappers_.length
  · right
    refine ⟨(find_if_eq_length_iff _ _).mp h, ?_⟩
    simp [Delegate.operatorMinusEq, h]
  · left
    obtain ⟨pre, e, post, hl, _, hpre, he, her⟩ := find_if_split _ _ h
    refine ⟨pre, e, post, hl, hpre, he, ?_⟩
    simp [Delegate.operatorMinusEq, h, her]

/-! ## Invocation -/

theorem invoke_step {σ : Type} (prog : Program σ) (w : BaseFunctionWrapper) (pack : List Val)
    (e : Exec σ) :
    (w.Invoke prog pack e).2.2.trace =
      e.trace ++ [⟨w.target, pack.map (fun v => v.moveConstruct.1)⟩] := by
  cases w <;> rfl

theorem invoke_undefined {σ : Type} (prog : Program σ) (w : BaseFunctionWrapper)
    (pack : List Val) (e : Exec σ) :
    (w.Invoke prog pack e).2.2.undefined =
      (e.undefined ||
        (prog.run w.target (pack.map (fun v => v.moveConstruct.1)) e.state).1.isSome) := by
  cases w <;> rfl

theorem invokeLoop_trace {σ : Type} (prog : Program σ) (ws : List SharedPtr) :
    ∀ (pack : List Val) (e : Exec σ), ∃ calls : List CallRecord,
      (invokeLoop prog ws pack e).2.trace = e.trace ++ calls ∧
      calls.map CallRecord.target <+: ws.map (fun w => w.obj.target) := by
  induction ws with
  | nil => intro pack e; exact ⟨[], by simp [invokeLoop]⟩
  | cons w ws ih =>
    intro pack e
    by_cases hu : (w.obj.Invoke prog pack e).2.2.undefined = true
    · refine ⟨[⟨w.obj.target, pack.map (fun v => v.moveConstruct.1)⟩], ?_, ?_⟩
      · simp only [invokeLoop, hu, if_true]
        exact invoke_step prog w.obj pack e
      · exact ⟨ws.map (fun w => w.obj.target), by simp⟩
    · obtain ⟨calls, h1, t, ht⟩ :=
        ih (w.obj.Invoke prog pack e).2.1 (w.obj.Invoke prog pack e).2.2
      refine ⟨⟨w.obj.target, pack.map (fun v => v.moveConstruct.1)⟩ :: calls, ?_, ?_⟩
      · simp only [invokeLoop, hu]
        rw [if_neg (by simp), h1, invoke_step]
        simp
      · exact ⟨t, by simp [← ht]⟩

theorem invokeLoop_trace_void {σ : Type} (prog : Program σ)
    (hvoid : ∀ t ps s, (prog.run t ps s).1 = none) (ws : List SharedPtr) :
    ∀ (pack : List Val) (e : Exec σ), e.undefined = false → ∃ calls : List CallRecord,
      (invokeLoop prog ws pack e).2.trace = e.trace ++ calls ∧
      calls.map CallRecord.target = ws.map (fun w => w.obj.target) ∧
      (invokeLoop prog ws pack e).2.undefined = false := by
  induction ws with
  | nil => intro pack e he; exact ⟨[], by simp [invokeLoop, he]⟩
  | cons w ws ih =>
    intro pack e he
    have hu : (w.obj.Invoke prog pack e).2.2.undefined = false := by
      rw [invoke_undefined, he, hvoid]
      rfl
    obtain ⟨calls, h1, h2, h3⟩ :=
      ih (w.obj.Invoke prog pack e).2.1 (w.obj.Invoke prog pack e).2.2 hu
    refine ⟨⟨w.obj.target, pack.map (fun v => v.moveConstruct.1)⟩ :: calls, ?_, ?_, ?_⟩
    · simp only [invokeLoop, hu]
      rw [if_neg (by simp), h1, invoke_step]
      simp
    · simp [h2]
    · simp only [invokeLoop, hu]
      rw [if_neg (by simp)]
      exact h3

theorem demo_program_void (t : Target) (ps : List Val) (s : List String) :
    (Demo.program.run t ps s).1 = none := by
  cases t with
  | function p =>
    simp only [Demo.program]
    split_ifs
    · rfl
    · rfl
    · split <;> rfl
    · rfl
  | method T o p =>
    simp only [Demo.program]
    split_ifs <;> rfl

/-- C3: when the targets return nothing, one call of `operator()` adds to the trace exactly one
call per stored wrapper, the targets being those of the sequence in sequence order, returns no
value and leaves the delegate as it was.  With two targets that return a value, here their
argument, the first is called and the behaviour is then undefined, `Invoke` having no return
statement: the second target is not reached. -/
theorem C3_invoke_order_stops_at_value_returning_target :
    (∀ (σ : Type) (prog : Program σ), (∀ t ps s, (prog.run t ps s).1 = none) →
      ∀ (d : Delegate) (pack : List Val) (e : Exec σ), e.undefined = false →
        (∃ calls : List CallRecord,
          (d.operatorCall prog pack e).exec.trace = e.trace ++ calls ∧
          calls.map CallRecord.target = d.wrappers_.map (fun w => w.obj.target)) ∧
        (d.operatorCall prog pack e).exec.undefined = false ∧
        (d.operatorCall prog pack e).value = none ∧
        (d.operatorCall prog pack e).self = d) ∧
    ((Delegate.mk [Function 1000 1, Function 1001 2]).operatorCall
        (Program.mk (fun _ params (s : Unit) => (params.head?, s)))
        [Val.int 42] ⟨[], (), false⟩).exec.trace = [⟨.function 1, [Val.int 42]⟩] ∧
    ((Delegate.mk [Function 1000 1, Function 1001 2]).operatorCall
        (Program.mk (fun _ params (s : Unit) => (params.head?, s)))
        [Val.int 42] ⟨[], (), false⟩).exec.undefined = true := by
  refine ⟨?_, by decide, by decide⟩
  intro σ prog hvoid d pack e he
  obtain ⟨calls, h1, h2, h3⟩ := invokeLoop_trace_void prog hvoid d.wrappers_ pack e he
  exact ⟨⟨calls, h1, h2⟩, h3, rfl, rfl⟩

/-- C3, at the delegate and the program of `main`: the three targets are called in order. -/
theorem C3_invoke_order_stops_at_value_returning_target_witness :
    (∃ calls : List CallRecord,
      ((Delegate.mk Demo.wrappers).operatorCall Demo.program [] ⟨[], [], false⟩).exec.trace
        = [] ++ calls ∧
      calls.map CallRecord.target = Demo.wrappers.map (fun w => w.obj.target)) ∧
    ((Delegate.mk Demo.wrappers).operatorCall Demo.program [] ⟨[], [], false⟩).exec.undefined
      = false ∧
    ((Delegate.mk Demo.wrappers).operatorCall Demo.program [] ⟨[], [], false⟩).value = none ∧
    ((Delegate.mk Demo.wrappers).operatorCall Demo.program [] ⟨[], [], false⟩).self
      = Delegate.mk Demo.wrappers :=
  C3_invoke_order_stops_at_value_returning_target.1 (List String) Demo.program
    demo_program_void (Delegate.mk Demo.wrappers) [] ⟨[], [], false⟩ rfl

/-! ## Identity comparison -/

theorem Compare_symm (a b : BaseFunctionWrapper) :
    a.Compare (some b) = b.Compare (some a) := by
  rcases a with ⟨f⟩ | ⟨T, o, m⟩ <;> rcases b with ⟨g⟩ | ⟨T2, o2, m2⟩
  · simp [BaseFunctionWrapper.Compare, StaticFunctionWrapper.Compare, dynamic_cast_Static,
      eq_comm]
  · simp [BaseFunctionWrapper.Compare, StaticFunctionWrapper.Compare,
      MemberFunctionWrapper.Compare, dynamic_cast_Static, dynamic_cast_Member]
  · simp [BaseFunctionWrapper.Compare, StaticFunctionWrapper.Compare,
      MemberFunctionWrapper.Compare, dynamic_cast_Static, dynamic_cast_Member]
  · by_cases hT : T = T2
    · subst hT
      simp only [BaseFunctionWrapper.Compare, MemberFunctionWrapper.Compare, dynamic_cast_Member,
        if_true]
      by_cases h : m = m2 ∧ o = o2
      · obtain ⟨h1, h2⟩ := h
        subst h1
        subst h2
        simp
      · have h2 : ¬ (m2 = m ∧ o2 = o) := fun hc => h ⟨hc.1.symm, hc.2.symm⟩
        simp [h, h2]
    · have hT2 : ¬ T2 = T := fun hc => hT hc.symm
      simp [BaseFunctionWrapper.Compare, MemberFunctionWrapper.Compare, dynamic_cast_Member,
        hT, hT2]

theorem Compare_self (a : BaseFunctionWrapper) : a.Compare (some a) = true := by
  rcases a with ⟨f⟩ | ⟨T, o, m⟩
  · simp [BaseFunctionWrapper.Compare, StaticFunctionWrapper.Compare, dynamic_cast_Static]
  · simp [BaseFunctionWrapper.Compare, MemberFunctionWrapper.Compare, dynamic_cast_Member]

/-! ## Uniqueness of the stored wrappers -/

theorem pairwise_plusEq (d : Delegate) (w : SharedPtr)
    (h : d.wrappers_.Pairwise (fun a b => a.obj.Compare b.get = false)) :
    (d.operatorPlusEq w).self.wrappers_.Pairwise (fun a b => a.obj.Compare b.get = false) := by
  by_cases hf : find_if (fun source : SharedPtr => source.obj.Compare w.get) d.wrappers_
      = d.wrappers_.length
  · have hall := (find_if_eq_length_iff _ _).mp hf
    simp only [Delegate.operatorPlusEq, hf, if_true]
    rw [List.pairwise_append]
    refine ⟨h, List.pairwise_singleton _ _, ?_⟩
    intro a ha b hb
    rw [List.mem_singleton] at hb
    subst hb
    exact hall a ha
  · simpa [Delegate.operatorPlusEq, hf] using h

theorem pairwise_minusEq (d : Delegate) (w : SharedPtr)
    (h : d.wrappers_.Pairwise (fun a b => a.obj.Compare b.get = false)) :
    (d.operatorMinusEq w).self.wrappers_.Pairwise (fun a b => a.obj.Compare b.get = false) := by
  by_cases hf : find_if (fun source : SharedPtr => source.obj.Compare w.get) d.wrappers_
      = d.wrappers_.length
  · simpa [Delegate.operatorMinusEq, hf] using h
  · obtain ⟨pre, e, post, hl, _, _, _, her⟩ := find_if_split _ _ hf
    simp only [Delegate.operatorMinusEq, hf, ne_eq, not_false_eq_true, if_true, her]
    rw [hl] at h
    exact h.sublist ((List.Sublist.refl pre).append (List.sublist_cons_self e post))

theorem pairwise_of_reachable (d : Delegate) (h : Reachable d) :
    d.wrappers_.Pairwise (fun a b => a.obj.Compare b.get = false) := by
  induction h with
  | default => simp [Delegate.default]
  | fromCallable w => simp [Delegate.fromCallable]
  | plusEq d w _ ih => exact pairwise_plusEq d w ih
  | minusEq d w _ ih => exact pairwise_minusEq d w ih
  | assign d w _ _ => simp [Delegate.operatorAssign]

/-- C4: in a delegate obtained from a constructor by `+=`, `-=` and `=` calls, the wrappers
stored at two different positions never compare equal. -/
theorem C4_uniqueness (d : Delegate) (h : Reachable d) (i j : Nat) (hij : i ≠ j)
    (a b : SharedPtr) (ha : d.wrappers_[i]? = some a) (hb : d.wrappers_[j]? = some b) :
    a.obj.Compare b.get = false := by
  have hp := List.pairwise_iff_getElem.mp (pairwise_of_reachable d h)
  obtain ⟨hi, hai⟩ := List.getElem?_eq_some.mp ha
  obtain ⟨hj, hbj⟩ := List.getElem?_eq_some.mp hb
  rcases Nat.lt_or_gt_of_ne hij with hlt | hgt
  · have := hp i j hi hj hlt
    rw [hai, hbj] at this
    exact this
  · have := hp j i hj hi hgt
    rw [hai, hbj] at this
    simp only [SharedPtr.get] at this ⊢
    rw [Compare_symm]
    exact this

/-- C4, at the delegate that `main` builds: its first two wrappers do not compare equal. -/
theorem C4_uniqueness_witness :
    Reachable (addAll Delegate.default Demo.wrappers) ∧
    (Function 1000 Demo.addr_test_func1).obj.Compare
      (Function 1001 Demo.addr_test_func2).get = false :=
  ⟨Reachable.plusEq _ _ (Reachable.plusEq _ _ (Reachable.plusEq _ _ Reachable.default)),
   C4_uniqueness (addAll Delegate.default Demo.wrappers)
    (Reachable.plusEq _ _ (Reachable.plusEq _ _ (Reachable.plusEq _ _ Reachable.default)))
    0 1 (by decide) _ _ (by decide) (by decide)⟩

/-! ## What `Compare` decides -/

/-- C5: `Compare` answers true exactly when both wrappers are objects of the same concrete
wrapper class holding the same target.  Two static wrappers compare equal iff their function
pointers are equal; two member wrappers of one class instantiation compare equal iff their
object pointers and their method pointers are equal (pointers of different classes are of
different types, and such wrappers are of different concrete classes); a static and a member
wrapper never compare equal; two wrappers the creators make from the same function pointer, or
from the same object and method, compare equal although they are distinct heap objects. -/
theorem C5_compare_identity :
    (∀ a b : BaseFunctionWrapper, a.Compare (some b) = true ↔ a = b) ∧
    (∀ f g : Nat, (BaseFunctionWrapper.static ⟨f⟩).Compare (some (.static ⟨g⟩)) = true ↔ f = g) ∧
    (∀ T o m o2 m2 : Nat,
      (BaseFunctionWrapper.member ⟨T, o, m⟩).Compare (some (.member ⟨T, o2, m2⟩)) = true ↔
        o = o2 ∧ m = m2) ∧
    (∀ T o m T2 o2 m2 : Nat,
      (BaseFunctionWrapper.member ⟨T, o, m⟩).Compare (some (.member ⟨T2, o2, m2⟩)) = true ↔
        T = T2 ∧ o = o2 ∧ m = m2) ∧
    (∀ (s : StaticFunctionWrapper) (m : MemberFunctionWrapper),
      (BaseFunctionWrapper.static s).Compare (some (.member m)) = false ∧
      (BaseFunctionWrapper.member m).Compare (some (.static s)) = false) ∧
    (∀ addr1 addr2 f : Nat, (Function addr1 f).obj.Compare (Function addr2 f).get = true) ∧
    (∀ addr1 addr2 T o m : Nat,
      (FunctionMember addr1 T o m).obj.Compare (FunctionMember addr2 T o m).get = true) := by
  have hmem : ∀ T o m T2 o2 m2 : Nat,
      (BaseFunctionWrapper.member ⟨T, o, m⟩).Compare (some (.member ⟨T2, o2, m2⟩)) = true ↔
        T = T2 ∧ o = o2 ∧ m = m2 := by
    intro T o m T2 o2 m2
    by_cases hT : T2 = T
    · subst hT
      simp only [BaseFunctionWrapper.Compare, MemberFunctionWrapper.Compare, dynamic_cast_Member,
        if_true]
      constructor
      · intro h
        by_cases hc : m = m2 ∧ o = o2
        · exact ⟨trivial, hc.2, hc.1⟩
        · simp [hc] at h
      · rintro ⟨_, h1, h2⟩
        simp [h1, h2]
    · have hT2 : ¬ T = T2 := fun hc => hT hc.symm
      simp [BaseFunctionWrapper.Compare, MemberFunctionWrapper.Compare, dynamic_cast_Member,
        hT, hT2]
  have hst : ∀ f g : Nat,
      (BaseFunctionWrapper.static ⟨f⟩).Compare (some (.static ⟨g⟩)) = true ↔ f = g := by
    intro f g
    simp [BaseFunctionWrapper.Compare, StaticFunctionWrapper.Compare, dynamic_cast_Static]
  have hcross : ∀ (s : StaticFunctionWrapper) (m : MemberFunctionWrapper),
      (BaseFunctionWrapper.static s).Compare (some (.member m)) = false ∧
      (BaseFunctionWrapper.member m).Compare (some (.static s)) = false := by
    intro s m
    simp [BaseFunctionWrapper.Compare, StaticFunctionWrapper.Compare,
      MemberFunctionWrapper.Compare, dynamic_cast_Static, dynamic_cast_Member]
  refine ⟨?_, hst, ?_, hmem, hcross, ?_, ?_⟩
  · intro a b
    rcases a with ⟨⟨f⟩⟩ | ⟨⟨T, o, m⟩⟩ <;> rcases b with ⟨⟨g⟩⟩ | ⟨⟨T2, o2, m2⟩⟩
    · rw [hst]
      simp
    · simp [(hcross ⟨f⟩ ⟨T2, o2, m2⟩).1]
    · simp [(hcross ⟨g⟩ ⟨T, o, m⟩).2]
    · rw [hmem]
      simp
  · intro T o m o2 m2
    rw [hmem]
    simp
  · intro addr1 addr2 f
    exact Compare_self _
  · intro addr1 addr2 T o m
    exact Compare_self _

/-! ## Algebra of the operators -/

theorem plusEq_of_mem (d : Delegate) (w e : SharedPtr) (he : e ∈ d.wrappers_)
    (hc : e.obj.Compare w.get = true) : (d.operatorPlusEq w).self = d := by
  have hf : find_if (fun source : SharedPtr => source.obj.Compare w.get) d.wrappers_
      ≠ d.wrappers_.length := by
    intro h
    have := (find_if_eq_length_iff _ _).mp h e he
    simp [hc] at this
  simp [Delegate.operatorPlusEq, hf]

/-- C6: a second `+=` of the same wrapper changes nothing: the sequence after two calls is the
sequence after one. -/
theorem C6_idempotent_add (d : Delegate) (w : SharedPtr) :
    ((d.operatorPlusEq w).self.operatorPlusEq w).self = (d.operatorPlusEq w).self := by
  rcases plusEq_cases d w with ⟨⟨e, he, hc⟩, hl⟩ | ⟨_, hl⟩
  · exact plusEq_of_mem _ w e (by rw [hl]; exact he) hc
  · exact plusEq_of_mem _ w w (by rw [hl]; simp) (Compare_self w.obj)

/-- C7: every call of `operator=` from a wrapper flows off the end of its body, which has no
return statement although the operator is declared to return `Delegate&`: its behaviour is
undefined and no reference is returned, whereas `+=` and `-=` return the delegate.  The two
statements of the body, `clear` and `push_back`, leave the one wrapper in the sequence; so for
`+= w1`, `+= w2`, `= w3`. -/
theorem C7_replace_flows_off_the_end :
    (∀ (d : Delegate) (w3 : SharedPtr),
      (d.operatorAssign w3).undefined = true ∧ (d.operatorAssign w3).returned = none ∧
      (d.operatorAssign w3).self.wrappers_ = [w3]) ∧
    (∀ (d : Delegate) (w : SharedPtr),
      (d.operatorPlusEq w).undefined = false ∧ (d.operatorMinusEq w).undefined = false) ∧
    (((Delegate.default.operatorPlusEq (Function 1000 1)).self.operatorPlusEq
        (Function 1001 2)).self.operatorAssign (Function 1002 3)).undefined = true := by
  refine ⟨?_, ?_, rfl⟩
  · intro d w3
    exact ⟨rfl, rfl, by simp [Delegate.operatorAssign]⟩
  · intro d w
    exact ⟨rfl, rfl⟩

/-! ## Scenarios -/

theorem addAll_append (ws : List SharedPtr) :
    ∀ d : Delegate, (d.wrappers_ ++ ws).Pairwise (fun a b => a.obj.Compare b.get = false) →
      (addAll d ws).wrappers_ = d.wrappers_ ++ ws := by
  induction ws with
  | nil => intro d _; simp [addAll]
  | cons w ws ih =>
    intro d h
    have hall : ∀ e ∈ d.wrappers_, e.obj.Compare w.get = false := by
      intro e he
      exact (List.pairwise_append.mp h).2.2 e he w (by simp)
    have hstep : (d.operatorPlusEq w).self.wrappers_ = d.wrappers_ ++ [w] := by
      rcases plusEq_cases d w with ⟨⟨e, he, hc⟩, _⟩ | ⟨_, hl⟩
      · rw [hall e he] at hc
        exact absurd hc (by decide)
      · exact hl
    have h2 : ((d.operatorPlusEq w).self.wrappers_ ++ ws).Pairwise
        (fun a b => a.obj.Compare b.get = false) := by
      rw [hstep]
      simpa using h
    have := ih (d.operatorPlusEq w).self h2
    rw [hstep] at this
    simpa [addAll] using this

/-- C8: wrappers of which no earlier one compares equal to a later one, added in order with
`+=` to an empty delegate, are stored as exactly that list.  When the targets return nothing,
one call of `operator()` then calls each of their targets once, in that order; in `main`, the
calls made are `test_func1`, `test_func2`, `mc.some_method`, and the three lines are written in
that order.  With two targets that return a value, here their argument, the first is called and
the behaviour is then undefined, `Invoke` having no return statement: the second target is not
reached. -/
theorem C8_registration_order_stops_at_value_returning_target :
    (∀ ws : List SharedPtr, ws.Pairwise (fun a b => a.obj.Compare b.get = false) →
      (addAll Delegate.default ws).wrappers_ = ws ∧
      ∀ (σ : Type) (prog : Program σ), (∀ t ps s, (prog.run t ps s).1 = none) →
        ∀ (pack : List Val) (e : Exec σ), e.undefined = false →
          (∃ calls : List CallRecord,
            ((addAll Delegate.default ws).operatorCall prog pack e).exec.trace
              = e.trace ++ calls ∧
            calls.map CallRecord.target = ws.map (fun w => w.obj.target)) ∧
          ((addAll Delegate.default ws).operatorCall prog pack e).exec.undefined = false) ∧
    Demo.main.exec.trace =
      [⟨.function Demo.addr_test_func1, []⟩, ⟨.function Demo.addr_test_func2, []⟩,
       ⟨.method Demo.class_MyClass Demo.addr_mc Demo.addr_some_method, []⟩] ∧
    Demo.main.exec.state =
      ["called the test function1", "called the test function2",
       "This is a method of class MyClass"] ∧
    Demo.main.exec.undefined = false ∧
    ((addAll Delegate.default [Function 1000 1, Function 1001 2]).operatorCall
        (Program.mk (fun _ params (s : Unit) => (params.head?, s)))
        [Val.int 42] ⟨[], (), false⟩).exec.trace = [⟨.function 1, [Val.int 42]⟩] ∧
    ((addAll Delegate.default [Function 1000 1, Function 1001 2]).operatorCall
        (Program.mk (fun _ params (s : Unit) => (params.head?, s)))
        [Val.int 42] ⟨[], (), false⟩).exec.undefined = true := by
  refine ⟨?_, by decide, by decide, by decide, by decide, by decide⟩
  intro ws h
  have hw : (addAll Delegate.default ws).wrappers_ = ws := by
    have := addAll_append ws Delegate.default (by simpa [Delegate.default] using h)
    simpa [Delegate.default] using this
  refine ⟨hw, ?_⟩
  intro σ prog hvoid pack e he
  obtain ⟨calls, h1, h2, h3⟩ :=
    invokeLoop_trace_void prog hvoid (addAll Delegate.default ws).wrappers_ pack e he
  rw [hw] at h2
  exact ⟨⟨calls, h1, h2⟩, h3⟩

/-- C8, at the three wrappers and the program of `main`: they are stored in the order of
registration and called in that order. -/
theorem C8_registration_order_stops_at_value_returning_target_witness :
    Demo.wrappers.Pairwise (fun a b => a.obj.Compare b.get = false) ∧
    (addAll Delegate.default Demo.wrappers).wrappers_ = Demo.wrappers ∧
    (∃ calls : List CallRecord,
      ((addAll Delegate.default Demo.wrappers).operatorCall Demo.program []
        ⟨[], [], false⟩).exec.trace = [] ++ calls ∧
      calls.map CallRecord.target = Demo.wrappers.map (fun w => w.obj.target)) ∧
    ((addAll Delegate.default Demo.wrappers).operatorCall Demo.program []
      ⟨[], [], false⟩).exec.undefined = false :=
  ⟨by decide,
   (C8_registration_order_stops_at_value_returning_target.1 Demo.wrappers (by decide)).1,
   (C8_registration_order_stops_at_value_returning_target.1 Demo.wrappers (by decide)).2
    (List String) Demo.program demo_program_void [] ⟨[], [], false⟩ rfl⟩

/-- C9: for two wrappers that do not compare equal, `+= w1`, `+= w2`, `-= w1` on an empty
delegate leave the sequence `[w2]`, whatever the kinds of the two wrappers. -/
theorem C9_identity_scoped_removal (w1 w2 : SharedPtr)
    (h : w1.obj.Compare w2.get = false) :
    (((Delegate.default.operatorPlusEq w1).self.operatorPlusEq w2).self.operatorMinusEq
      w1).self.wrappers_ = [w2] := by
  have hs : w1.obj.Compare w1.get = true := Compare_self w1.obj
  simp [Delegate.default, Delegate.operatorPlusEq, Delegate.operatorMinusEq, find_if, h, hs,
    erase]

/-- C9, at a bound method and a free function. -/
theorem C9_identity_scoped_removal_witness :
    (((Delegate.default.operatorPlusEq (FunctionMember 1 7 100 3)).self.operatorPlusEq
      (Function 2 3)).self.operatorMinusEq (FunctionMember 1 7 100 3)).self.wrappers_
      = [Function 2 3] :=
  C9_identity_scoped_removal (FunctionMember 1 7 100 3) (Function 2 3) (by decide)

/-- C10: a static wrapper and a member wrapper never compare equal, in either direction, and
adding both to an empty delegate, in either order, stores both. -/
theorem C10_cross_variant (addr1 addr2 f T obj m : Nat) :
    (Function addr1 f).obj.Compare (FunctionMember addr2 T obj m).get = false ∧
    (FunctionMember addr2 T obj m).obj.Compare (Function addr1 f).get = false ∧
    ((Delegate.default.operatorPlusEq (Function addr1 f)).self.operatorPlusEq
      (FunctionMember addr2 T obj m)).self.wrappers_
      = [Function addr1 f, FunctionMember addr2 T obj m] ∧
    ((Delegate.default.operatorPlusEq (FunctionMember addr2 T obj m)).self.operatorPlusEq
      (Function addr1 f)).self.wrappers_
      = [FunctionMember addr2 T obj m, Function addr1 f] := by
  have h1 : (Function addr1 f).obj.Compare (FunctionMember addr2 T obj m).get = false := by
    simp [Function, FunctionMember, SharedPtr.get, BaseFunctionWrapper.Compare,
      StaticFunctionWrapper.Compare, dynamic_cast_Static]
  have h2 : (FunctionMember addr2 T obj m).obj.Compare (Function addr1 f).get = false := by
    simp [Function, FunctionMember, SharedPtr.get, BaseFunctionWrapper.Compare,
      MemberFunctionWrapper.Compare, dynamic_cast_Member]
  refine ⟨h1, h2, ?_, ?_⟩
  · simp [Delegate.default, Delegate.operatorPlusEq, find_if, h1]
  · simp [Delegate.default, Delegate.operatorPlusEq, find_if, h2]

/-! ## Consequences of uniqueness -/

theorem Compare_iff_eq (a b : BaseFunctionWrapper) : a.Compare (some b) = true ↔ a = b := by
  rcases a with ⟨⟨f⟩⟩ | ⟨⟨T, o, m⟩⟩ <;> rcases b with ⟨⟨g⟩⟩ | ⟨⟨T2, o2, m2⟩⟩
  · simp [BaseFunctionWrapper.Compare, StaticFunctionWrapper.Compare, dynamic_cast_Static]
  · simp [BaseFunctionWrapper.Compare, StaticFunctionWrapper.Compare, dynamic_cast_Static]
  · simp [BaseFunctionWrapper.Compare, MemberFunctionWrapper.Compare, dynamic_cast_Member]
  · by_cases hT : T2 = T
    · subst hT
      simp only [BaseFunctionWrapper.Compare, MemberFunctionWrapper.Compare, dynamic_cast_Member,
        if_true]
      constructor
      · intro h
        by_cases hc : m = m2 ∧ o = o2
        · rw [hc.1, hc.2]
        · simp [hc] at h
      · intro h
        injection h with h
        injection h with _ h1 h2
        simp [h1, h2]
    · have hT2 : ¬ T = T2 := fun hc => hT hc.symm
      simp [BaseFunctionWrapper.Compare, MemberFunctionWrapper.Compare, dynamic_cast_Member,
        hT, hT2]

theorem Compare_trans (a b c : BaseFunctionWrapper) (hab : a.Compare (some b) = true)
    (hbc : b.Compare (some c) = true) : a.Compare (some c) = true := by
  rw [Compare_iff_eq] at hab hbc ⊢
  exact hab.trans hbc

theorem target_eq_iff (a b : BaseFunctionWrapper) : a.target = b.target ↔ a = b := by
  rcases a with ⟨⟨f⟩⟩ | ⟨⟨T, o, m⟩⟩ <;> rcases b with ⟨⟨g⟩⟩ | ⟨⟨T2, o2, m2⟩⟩ <;>
    simp [BaseFunctionWrapper.target]

theorem countP_le_one_of_pairwise (w : SharedPtr) (l : List SharedPtr)
    (h : l.Pairwise (fun a b => a.obj.Compare b.get = false)) :
    l.countP (fun e => e.obj.Compare w.get) ≤ 1 := by
  induction l with
  | nil => simp
  | cons x xs ih =>
    rw [List.pairwise_cons] at h
    by_cases hx : x.obj.Compare w.get = true
    · have hzero : xs.countP (fun e => e.obj.Compare w.get) = 0 := by
        rw [List.countP_eq_zero]
        intro y hy hyw
        have hxy := h.1 y hy
        have hwy : w.obj.Compare (some y.obj) = true := by
          rw [Compare_symm]
          exact hyw
        have := Compare_trans x.obj w.obj y.obj hx hwy
        simp only [SharedPtr.get] at hxy
        rw [hxy] at this
        exact absurd this (by decide)
      simp [List.countP_cons, hx, hzero]
    · have := ih h.2
      simp [List.countP_cons, hx, this]

theorem countP_plusEq_pos (d : Delegate) (w : SharedPtr) :
    0 < (d.operatorPlusEq w).self.wrappers_.countP (fun e => e.obj.Compare w.get) := by
  rw [List.countP_pos_iff]
  rcases plusEq_cases d w with ⟨⟨e, he, hc⟩, hl⟩ | ⟨_, hl⟩
  · exact ⟨e, by rw [hl]; exact he, hc⟩
  · exact ⟨w, by rw [hl]; simp, Compare_self w.obj⟩

/-- C11: when `w2` compares equal to `w`, `+= w` then `+= w2` on an empty delegate stores `w`
alone and one call of `operator()` calls its target once; registering `test_func1` twice in the
demo program writes its line once.  In every reachable delegate, after `+= w` exactly one stored
element compares equal to `w`. -/
theorem C11_duplicate_invoked_once :
    (∀ w w2 : SharedPtr, w.obj.Compare w2.get = true →
      ((Delegate.default.operatorPlusEq w).self.operatorPlusEq w2).self.wrappers_ = [w] ∧
      ∀ (σ : Type) (prog : Program σ) (pack : List Val) (e : Exec σ),
        (((Delegate.default.operatorPlusEq w).self.operatorPlusEq w2).self.operatorCall
          prog pack e).exec.trace =
          e.trace ++ [⟨w.obj.target, pack.map (fun v => v.moveConstruct.1)⟩]) ∧
    (((Delegate.default.operatorPlusEq (Function 1000 Demo.addr_test_func1)).self.operatorPlusEq
        (Function 1001 Demo.addr_test_func1)).self.operatorCall
          Demo.program [] ⟨[], [], false⟩).exec.state = ["called the test function1"] ∧
    (∀ d : Delegate, Reachable d → ∀ w : SharedPtr,
      (d.operatorPlusEq w).self.wrappers_.countP (fun e => e.obj.Compare w.get) = 1) := by
  refine ⟨?_, by decide, ?_⟩
  · intro w w2 h
    have hw : ((Delegate.default.operatorPlusEq w).self.operatorPlusEq w2).self.wrappers_
        = [w] := by
      simp [Delegate.default, Delegate.operatorPlusEq, find_if, h]
    refine ⟨hw, ?_⟩
    intro σ prog pack e
    simp only [Delegate.operatorCall, hw, invokeLoop]
    split <;> exact invoke_step prog w.obj pack e
  · intro d hd w
    have h1 := countP_le_one_of_pairwise w _ (pairwise_of_reachable _ (Reachable.plusEq d w hd))
    have h2 := countP_plusEq_pos d w
    omega

/-- C11, at two wrappers made from one function and at the delegate holding the first. -/
theorem C11_duplicate_invoked_once_witness :
    ((Delegate.default.operatorPlusEq (Function 1000 7)).self.operatorPlusEq
      (Function 1001 7)).self.wrappers_ = [Function 1000 7] ∧
    ((Delegate.fromCallable (Function 1000 7)).operatorPlusEq
      (Function 1001 7)).self.wrappers_.countP
        (fun e => e.obj.Compare (Function 1001 7).get) = 1 :=
  ⟨(C11_duplicate_invoked_once.1 (Function 1000 7) (Function 1001 7) (by decide)).1,
   C11_duplicate_invoked_once.2.2 (Delegate.fromCallable (Function 1000 7))
    (Reachable.fromCallable _) (Function 1001 7)⟩

/-! ## Arguments and results of an invocation -/

/-- C12: a delegate holding two free functions, called with one `std::vector<int>` temporary
holding 1, 2, 3: the first target receives the vector, the second receives an empty one, because
each wrapper forwards the same pack object and the first call moved from it.  With an `int`
argument both targets receive the value. -/
theorem C12_second_target_receives_moved_from :
    ((addAll Delegate.default [Function 1000 1, Function 1001 2]).operatorCall
        Demo.program [Val.vec [1, 2, 3]] ⟨[], [], false⟩).exec.trace =
      [⟨.function 1, [Val.vec [1, 2, 3]]⟩, ⟨.function 2, [Val.vec []]⟩] ∧
    ((addAll Delegate.default [Function 1000 1, Function 1001 2]).operatorCall
        Demo.program [Val.int 5] ⟨[], [], false⟩).exec.trace =
      [⟨.function 1, [Val.int 5]⟩, ⟨.function 2, [Val.int 5]⟩] := by
  constructor <;> decide

/-- C13: `Invoke` of either wrapper calls its target once with the forwarded arguments, but
gives back no value: for a target that returns its first argument, the call inside yields 42 and
`Invoke` yields nothing, control flowing off the end of its body, which is undefined. -/
theorem C13_invoke_drops_result :
    (∀ (σ : Type) (prog : Program σ) (w : BaseFunctionWrapper) (pack : List Val) (e : Exec σ),
      (w.Invoke prog pack e).1 = none ∧
      (w.Invoke prog pack e).2.2.trace =
        e.trace ++ [⟨w.target, pack.map (fun v => v.moveConstruct.1)⟩]) ∧
    (callTarget (Program.mk (fun _ params (s : Unit) => (params.head?, s)))
        (.function 1) [Val.int 42] ⟨[], (), false⟩).1 = some (Val.int 42) ∧
    (StaticFunctionWrapper.Invoke (Program.mk (fun _ params (s : Unit) => (params.head?, s)))
        ⟨1⟩ [Val.int 42] ⟨[], (), false⟩).1 = none ∧
    (MemberFunctionWrapper.Invoke (Program.mk (fun _ params (s : Unit) => (params.head?, s)))
        ⟨1, 100, 1⟩ [Val.int 42] ⟨[], (), false⟩).1 = none ∧
    (StaticFunctionWrapper.Invoke (Program.mk (fun _ params (s : Unit) => (params.head?, s)))
        ⟨1⟩ [Val.int 42] ⟨[], (), false⟩).2.2.undefined = true ∧
    (MemberFunctionWrapper.Invoke (Program.mk (fun _ params (s : Unit) => (params.head?, s)))
        ⟨1, 100, 1⟩ [Val.int 42] ⟨[], (), false⟩).2.2.undefined = true := by
  refine ⟨?_, rfl, rfl, rfl, rfl, rfl⟩
  intro σ prog w pack e
  refine ⟨?_, invoke_step prog w pack e⟩
  cases w <;> rfl

/-! ## Construction and the empty delegate -/

/-- C14: the default constructor gives the empty sequence; the constructor from a wrapper gives
the sequence holding that wrapper alone, which is also what `+=` gives on an empty delegate.
A call of `=` on any delegate flows off the end of its body, which has no return statement: its
behaviour is undefined, after its two statements have left that same sequence. -/
theorem C14_construction_and_undefined_replace (w : SharedPtr) :
    Delegate.default.wrappers_ = [] ∧
    (Delegate.fromCallable w).wrappers_ = [w] ∧
    (Delegate.default.operatorPlusEq w).self.wrappers_ = (Delegate.fromCallable w).wrappers_ ∧
    (Delegate.default.operatorPlusEq w).undefined = false ∧
    (∀ d : Delegate, (d.operatorAssign w).undefined = true ∧
      (d.operatorAssign w).self.wrappers_ = (Delegate.fromCallable w).wrappers_) := by
  refine ⟨rfl, rfl, ?_, rfl, ?_⟩
  · simp [Delegate.default, Delegate.operatorPlusEq, Delegate.fromCallable, find_if]
  · intro d
    exact ⟨rfl, rfl⟩

/-- C15: calling a delegate that holds no wrapper makes no target call: the trace, the program
state and the arguments are as before, the operator returns (no value), and the sequence is
still empty. -/
theorem C15_empty_invoke {σ : Type} (prog : Program σ) (pack : List Val) (e : Exec σ) :
    ((Delegate.mk []).operatorCall prog pack e).exec.trace = e.trace ∧
    ((Delegate.mk []).operatorCall prog pack e).exec.state = e.state ∧
    ((Delegate.mk []).operatorCall prog pack e).pack = pack ∧
    ((Delegate.mk []).operatorCall prog pack e).value = none ∧
    ((Delegate.mk []).operatorCall prog pack e).self.wrappers_ = [] :=
  ⟨rfl, rfl, rfl, rfl, rfl⟩

/-! ## `Compare` as an equivalence, and removal -/

theorem compare_flip (w : SharedPtr) :
    (fun source : SharedPtr => w.obj.Compare source.get) =
      (fun source : SharedPtr => source.obj.Compare w.get) := by
  funext source
  exact Compare_symm w.obj source.obj

/-- C16: `Compare` is reflexive, symmetric and transitive, and `+=` and `-=` give the same
outcome when their lambda calls `Compare` in the other direction. -/
theorem C16_compare_equivalence :
    (∀ a : BaseFunctionWrapper, a.Compare (some a) = true) ∧
    (∀ a b : BaseFunctionWrapper, a.Compare (some b) = b.Compare (some a)) ∧
    (∀ a b c : BaseFunctionWrapper, a.Compare (some b) = true → b.Compare (some c) = true →
      a.Compare (some c) = true) ∧
    (∀ (d : Delegate) (w : SharedPtr), d.operatorPlusEqFlipped w = d.operatorPlusEq w) ∧
    (∀ (d : Delegate) (w : SharedPtr), d.operatorMinusEqFlipped w = d.operatorMinusEq w) := by
  refine ⟨Compare_self, Compare_symm, Compare_trans, ?_, ?_⟩
  · intro d w
    simp only [Delegate.operatorPlusEqFlipped, Delegate.operatorPlusEq, compare_flip]
  · intro d w
    simp only [Delegate.operatorMinusEqFlipped, Delegate.operatorMinusEq, compare_flip]

/-- C16, transitivity at three wrappers of one bound method. -/
theorem C16_compare_equivalence_witness :
    (FunctionMember 1 7 100 3).obj.Compare (FunctionMember 3 7 100 3).get = true :=
  C16_compare_equivalence.2.2.1 (FunctionMember 1 7 100 3).obj (FunctionMember 2 7 100 3).obj
    (FunctionMember 3 7 100 3).obj (by decide) (by decide)

theorem minusEq_no_match (d : Delegate) (w : SharedPtr)
    (hp : d.wrappers_.Pairwise (fun a b => a.obj.Compare b.get = false)) :
    ∀ x ∈ (d.operatorMinusEq w).self.wrappers_, x.obj.Compare w.get = false := by
  by_cases hf : find_if (fun source : SharedPtr => source.obj.Compare w.get) d.wrappers_
      = d.wrappers_.length
  · have hall := (find_if_eq_length_iff _ _).mp hf
    simpa [Delegate.operatorMinusEq, hf] using hall
  · obtain ⟨pre, e, post, hl, _, hpre, he, her⟩ := find_if_split _ _ hf
    simp only [Delegate.operatorMinusEq, hf, ne_eq, not_false_eq_true, if_true, her]
    intro x hx
    rcases List.mem_append.mp hx with hx | hx
    · exact hpre x hx
    · rw [hl] at hp
      have hex : e.obj.Compare x.get = false :=
        List.rel_of_pairwise_cons (List.pairwise_append.mp hp).2.1 hx
      by_contra hxw
      have hxw2 : x.obj.Compare (some w.obj) = true := by simpa [SharedPtr.get] using hxw
      have hwx : w.obj.Compare (some x.obj) = true := by
        rw [Compare_symm]
        exact hxw2
      have := Compare_trans e.obj w.obj x.obj he hwx
      simp only [SharedPtr.get] at hex
      rw [hex] at this
      exact absurd this (by decide)

/-- C17: in a reachable delegate, after `-= w` no stored element compares equal to `w`, and a
following call of `operator()` makes no call of the target of `w`. -/
theorem C17_removal_complete (d : Delegate) (h : Reachable d) (w : SharedPtr) :
    (∀ x ∈ (d.operatorMinusEq w).self.wrappers_, x.obj.Compare w.get = false) ∧
    ∀ (σ : Type) (prog : Program σ) (pack : List Val) (e : Exec σ),
      ∀ c ∈ (((d.operatorMinusEq w).self.operatorCall prog pack e).exec.trace.drop
        e.trace.length), c.target ≠ w.obj.target := by
  have hno := minusEq_no_match d w (pairwise_of_reachable d h)
  refine ⟨hno, ?_⟩
  intro σ prog pack e c hc
  obtain ⟨calls, h1, h2⟩ := invokeLoop_trace prog (d.operatorMinusEq w).self.wrappers_ pack e
  have hdrop : ((d.operatorMinusEq w).self.operatorCall prog pack e).exec.trace.drop
      e.trace.length = calls := by
    simp only [Delegate.operatorCall]
    rw [h1]
    simp
  rw [hdrop] at hc
  have hmem : c.target ∈ calls.map CallRecord.target := List.mem_map_of_mem _ hc
  obtain ⟨x, hx, hxt⟩ := List.mem_map.mp (h2.subset hmem)
  intro hct
  have hxw : x.obj = w.obj := (target_eq_iff _ _).mp (hxt.trans hct)
  have := hno x hx
  simp only [SharedPtr.get] at this
  rw [hxw, Compare_self] at this
  exact absurd this (by decide)

/-- C17, at the delegate of `main` after removing `test_func1` through a second wrapper. -/
theorem C17_removal_complete_witness :
    Reachable (addAll Delegate.default Demo.wrappers) ∧
    ∀ x ∈ ((addAll Delegate.default Demo.wrappers).operatorMinusEq
      (Function 2000 Demo.addr_test_func1)).self.wrappers_,
      x.obj.Compare (Function 2000 Demo.addr_test_func1).get = false :=
  ⟨Reachable.plusEq _ _ (Reachable.plusEq _ _ (Reachable.plusEq _ _ Reachable.default)),
   (C17_removal_complete (addAll Delegate.default Demo.wrappers)
    (Reachable.plusEq _ _ (Reachable.plusEq _ _ (Reachable.plusEq _ _ Reachable.default)))
    (Function 2000 Demo.addr_test_func1)).1⟩

/-! ## Adding and removing in sequence -/

theorem find_if_append_last {α : Type} (pred : α → Bool) (l : List α) (w : α)
    (h : ∀ x ∈ l, pred x = false) (hw : pred w = true) :
    find_if pred (l ++ [w]) = l.length ∧ erase (l ++ [w]) l.length = l := by
  induction l with
  | nil => simp [find_if, hw, erase]
  | cons x xs ih =>
    have hx : pred x = false := h x (by simp)
    obtain ⟨h1, h2⟩ := ih (fun y hy => h y (by simp [hy]))
    simp [find_if, hx, h1, erase, h2]

/-- C18: when no stored element compares equal to `w`, `+= w` followed by `-= w` gives back the
delegate as it was.  When a reachable delegate holds an element `e` comparing equal to `w`,
`-= w` followed by `+= w` gives the other elements in their order followed by `w`, whose target
is that of `e`: the targets are the same set, that one being last. -/
theorem C18_remove_undoes_add :
    (∀ (d : Delegate) (w : SharedPtr), (∀ e ∈ d.wrappers_, e.obj.Compare w.get = false) →
      ((d.operatorPlusEq w).self.operatorMinusEq w).self = d) ∧
    (∀ d : Delegate, Reachable d → ∀ w : SharedPtr,
      (∃ e ∈ d.wrappers_, e.obj.Compare w.get = true) →
      ∃ pre e post, d.wrappers_ = pre ++ e :: post ∧ e.obj.target = w.obj.target ∧
        ((d.operatorMinusEq w).self.operatorPlusEq w).self.wrappers_ = pre ++ post ++ [w] ∧
        ∀ t : Target,
          t ∈ ((d.operatorMinusEq w).self.operatorPlusEq w).self.wrappers_.map
                (fun x => x.obj.target) ↔
          t ∈ d.wrappers_.map (fun x => x.obj.target)) := by
  constructor
  · intro d w hnone
    have hadd : (d.operatorPlusEq w).self.wrappers_ = d.wrappers_ ++ [w] := by
      rcases plusEq_cases d w with ⟨⟨e, he, hc⟩, _⟩ | ⟨_, hl⟩
      · rw [hnone e he] at hc
        exact absurd hc (by decide)
      · exact hl
    obtain ⟨h1, h2⟩ := find_if_append_last (fun source : SharedPtr => source.obj.Compare w.get)
      d.wrappers_ w hnone (Compare_self w.obj)
    cases d with
    | mk l =>
      simp only [Delegate.operatorMinusEq, hadd, h1, ne_eq, h2]
      simp
  · intro d hd w hex
    obtain ⟨e0, he0, hc0⟩ := hex
    have hf : find_if (fun source : SharedPtr => source.obj.Compare w.get) d.wrappers_
        ≠ d.wrappers_.length := by
      intro hc
      have := (find_if_eq_length_iff _ _).mp hc e0 he0
      simp [hc0] at this
    obtain ⟨pre, e, post, hl, _, _, he, her⟩ := find_if_split _ _ hf
    have hrem : (d.operatorMinusEq w).self.wrappers_ = pre ++ post := by
      simp [Delegate.operatorMinusEq, hf, her]
    have hno := minusEq_no_match d w (pairwise_of_reachable d hd)
    have hadd : ((d.operatorMinusEq w).self.operatorPlusEq w).self.wrappers_
        = pre ++ post ++ [w] := by
      rcases plusEq_cases (d.operatorMinusEq w).self w with ⟨⟨x, hx, hc⟩, _⟩ | ⟨_, hl2⟩
      · rw [hno x hx] at hc
        exact absurd hc (by decide)
      · rw [hl2, hrem]
    have het : e.obj.target = w.obj.target :=
      (target_eq_iff _ _).mpr ((Compare_iff_eq _ _).mp he)
    refine ⟨pre, e, post, hl, het, hadd, ?_⟩
    intro t
    rw [hadd, hl]
    simp only [List.map_append, List.map_cons, List.map_nil, List.mem_append, List.mem_cons,
      List.mem_singleton, List.not_mem_nil, or_false, het]
    tauto

/-- C18, at the delegate of `main`: adding then removing a wrapper of `test_func3` gives the
delegate back, and removing then adding a second wrapper of `test_func1` moves that target to
the end. -/
theorem C18_remove_undoes_add_witness :
    (((addAll Delegate.default Demo.wrappers).operatorPlusEq
      (Function 2000 Demo.addr_test_func3)).self.operatorMinusEq
      (Function 2000 Demo.addr_test_func3)).self = addAll Delegate.default Demo.wrappers ∧
    ∃ pre e post, (addAll Delegate.default Demo.wrappers).wrappers_ = pre ++ e :: post ∧
      e.obj.target = (Function 2000 Demo.addr_test_func1).obj.target ∧
      (((addAll Delegate.default Demo.wrappers).operatorMinusEq
        (Function 2000 Demo.addr_test_func1)).self.operatorPlusEq
        (Function 2000 Demo.addr_test_func1)).self.wrappers_
        = pre ++ post ++ [Function 2000 Demo.addr_test_func1] ∧
      ∀ t : Target,
        t ∈ (((addAll Delegate.default Demo.wrappers).operatorMinusEq
            (Function 2000 Demo.addr_test_func1)).self.operatorPlusEq
            (Function 2000 Demo.addr_test_func1)).self.wrappers_.map (fun x => x.obj.target) ↔
        t ∈ (addAll Delegate.default Demo.wrappers).wrappers_.map (fun x => x.obj.target) :=
  ⟨C18_remove_undoes_add.1 (addAll Delegate.default Demo.wrappers)
    (Function 2000 Demo.addr_test_func3) (by decide),
   C18_remove_undoes_add.2 (addAll Delegate.default Demo.wrappers)
    (Reachable.plusEq _ _ (Reachable.plusEq _ _ (Reachable.plusEq _ _ Reachable.default)))
    (Function 2000 Demo.addr_test_func1)
    ⟨Function 1000 Demo.addr_test_func1, by decide, by decide⟩⟩

end Delegate
